import Mathlib

/-!
Verification of the birdnet-go capture-and-buffering engine against its
specification.  The Go sources embedded here are
`internal/httpcontroller/handlers/audio_level_sse.go` (SSE level tracking,
`isSourceInactive`, `checkSourceActivity`, `cleanRTSPUrl`) and the `myaudio`
package (`ReconfigureRTSPStreams`, `calculateAudioLevel`).

Modelling conventions:
* bytes are naturals reduced `% 256` where the value matters;
* Go `float64` arithmetic is modelled over `ℝ`, except that the value
  `-Inf` produced by `math.Log10(0)` is modelled as `⊥ : EReal`;
* Go maps and sets are association lists / membership lists;
* the straight-line effects of `ReconfigureRTSPStreams` are recorded as an
  event trace so that ordering properties ("freed only after ...") can be
  stated.
-/

set_option maxHeartbeats 1000000

/-! ## Definitions -/

/-- A signed 16-bit sample decoded little-endian from two bytes, as in
`int16(binary.LittleEndian.Uint16(samples[i : i+2]))`. -/
def toSample (b0 b1 : Nat) : Int :=
  let u : Nat := b0 % 256 + 256 * (b1 % 256)
  if u < 32768 then (u : Int) else (u : Int) - 65536

/-- The decoded 16-bit samples of a byte slice, two bytes at a time.  A
trailing unpaired byte is dropped, mirroring the truncation to even length
and the `i+1 >= len(samples)` guard of `calculateAudioLevel`. -/
def samplesOf : List Nat → List Int
  | b0 :: b1 :: rest => toSample b0 b1 :: samplesOf rest
  | _ => []

/-- The `sum` accumulator of `calculateAudioLevel`: the sum of
`sampleAbs * sampleAbs` over all decoded samples (exact, since squares of
16-bit integers are exactly representable in `float64`). -/
def sumSquares (samples : List Nat) : Int :=
  ((samplesOf samples).map fun s => s * s).sum

/-- The `isClipping` flag of `calculateAudioLevel`: some decoded sample
equals the maximum positive or negative 16-bit value. -/
def hasClipping (samples : List Nat) : Bool :=
  (samplesOf samples).any fun s => s == 32767 || s == -32768

/-- The `rms := math.Sqrt(sum / float64(sampleCount))` step, with
`sampleCount = len(samples)/2`. -/
noncomputable def rmsOf (samples : List Nat) : ℝ :=
  Real.sqrt ((sumSquares samples : ℝ) / ((samples.length / 2 : Nat) : ℝ))

/-- The `db := 20 * math.Log10(rms/32768.0)` step.  Machine arithmetic sends
`rms = 0` to `-Inf`, modelled as `⊥ : EReal`. -/
noncomputable def dbOfRms (rms : ℝ) : EReal :=
  if rms = 0 then ⊥ else (((20 : ℝ) * Real.logb 10 (rms / 32768) : ℝ) : EReal)

/-- The `scaledLevel := (db + 60) * (100.0 / 50.0)` rescaling step of
`calculateAudioLevel`. -/
noncomputable def scaleDb (db : EReal) : EReal :=
  (db + ((60 : ℝ) : EReal)) * ((((100 : ℝ) / 50 : ℝ)) : EReal)

/-- The final clamp of `calculateAudioLevel`:
`if scaledLevel < 0 { 0 } else if scaledLevel > 100 { 100 }`. -/
noncomputable def clampLevel (x : EReal) : EReal :=
  if x < ((0 : ℝ) : EReal) then ((0 : ℝ) : EReal)
  else if ((100 : ℝ) : EReal) < x then ((100 : ℝ) : EReal)
  else x

/-- Go's `int(x)` conversion truncates toward zero; the clamped level is
nonnegative, so this is the floor. -/
noncomputable def levelInt (x : EReal) : Int := Int.floor x.toReal

/-- `AudioLevelData` from the `myaudio` package. -/
structure AudioLevelData where
  Level : Int
  Clipping : Bool
  Source : String
  Name : String
deriving DecidableEq

/-- Shallow embedding of `calculateAudioLevel(samples []byte, source, name
string)`: RMS over signed 16-bit samples, dBFS conversion, rescaling to
0-100, clipping forces at least 95, final clamp to `[0, 100]`. -/
noncomputable def calculateAudioLevel (samples : List Nat) (source name : String) :
    AudioLevelData :=
  if samples.length = 0 then ⟨0, false, source, name⟩
  else if samples.length / 2 = 0 then ⟨0, false, source, name⟩
  else
    let isClipping := hasClipping samples
    let scaledLevel := scaleDb (dbOfRms (rmsOf samples))
    let scaledLevel2 :=
      if isClipping then max scaledLevel ((95 : ℝ) : EReal) else scaledLevel
    ⟨levelInt (clampLevel scaledLevel2), isClipping, source, name⟩

/-- The spec's proportional rescaling of dBFS onto levels: a straight line
through the two endpoints -60 dBFS ↦ 0 and 0 dBFS ↦ 100 (slope 100/60).
Stated from the spec's words, for comparison with the source's `scaleDb`. -/
noncomputable def specProportionalScale (db : ℝ) : ℝ := (db + 60) * (100 / 60)

/-! ## SSE level tracking (`isSourceInactive`, `checkSourceActivity`)

Times are modelled as integers (e.g. seconds); Go maps from source id to
`time.Time` become association lists, with `List.lookup` playing the role of
the comma-ok map read. -/

/-- Shallow embedding of `isSourceInactive(source, now, lastUpdateTime,
lastNonZeroTime, inactivityThreshold)`: a source with both timestamps
recorded is inactive when either is older than the threshold; a source
missing a timestamp is considered active. -/
def isSourceInactive (source : String) (now : Int)
    (lastUpdateTime lastNonZeroTime : List (String × Int))
    (inactivityThreshold : Int) : Bool :=
  match lastUpdateTime.lookup source, lastNonZeroTime.lookup source with
  | some lastUpdate, some lastNonZero =>
      decide (now - lastUpdate > inactivityThreshold) ||
        decide (now - lastNonZero > inactivityThreshold)
  | _, _ => false

/-- Shallow embedding of `checkSourceActivity(levels, lastUpdateTime,
lastNonZeroTime, inactivityThreshold)`.  The Go function reads
`now := time.Now()` once; `now` is passed explicitly here.  It zeroes the
level of every inactive entry in place (entries are never removed) and
reports whether anything changed. -/
def checkSourceActivity (levels : List (String × AudioLevelData))
    (lastUpdateTime lastNonZeroTime : List (String × Int))
    (inactivityThreshold now : Int) :
    List (String × AudioLevelData) × Bool :=
  (levels.map fun p =>
      if isSourceInactive p.1 now lastUpdateTime lastNonZeroTime inactivityThreshold
          && (p.2.Level != 0) then
        (p.1, { p.2 with Level := 0 })
      else p,
    levels.any fun p =>
      isSourceInactive p.1 now lastUpdateTime lastNonZeroTime inactivityThreshold
        && (p.2.Level != 0))

/-! ## Display-name sanitisation (`cleanRTSPUrl`)

Go strings are modelled as `List Char`; `len("rtsp://") = 7`. -/

/-- Index of the first occurrence of `c` in a character list. -/
def findCharIdx (c : Char) : List Char → Option Nat
  | [] => none
  | x :: rest => if x = c then some 0 else (findCharIdx c rest).map fun k => k + 1

/-- First index at or after `start` holding `c`: the scanning loops
`for i := len("rtsp://"); i < len(url); i++` of `cleanRTSPUrl`
(`none` plays the role of `-1`). -/
def findCharFrom (url : List Char) (start : Nat) (c : Char) : Option Nat :=
  (findCharIdx c (url.drop start)).map fun k => start + k

/-- The seven characters of the fixed scheme string `"rtsp://"`. -/
def rtspScheme : List Char := ['r', 't', 's', 'p', ':', '/', '/']

/-- Shallow embedding of `cleanRTSPUrl`: drop everything between the scheme
and the first `@` (if any), then truncate at the first `/` after the
scheme. -/
def cleanRTSPUrl (url : List Char) : List Char :=
  let url1 :=
    match findCharFrom url 7 '@' with
    | some atIndex => rtspScheme ++ url.drop (atIndex + 1)
    | none => url
  match findCharFrom url1 7 '/' with
  | some slashIndex => url1.take slashIndex
  | none => url1

/-- The host-and-port portion of the text following the credentials:
everything up to the first slash. -/
def hostPart (rest : List Char) : List Char :=
  match findCharIdx '/' rest with
  | some j => rest.take j
  | none => rest

/-- `seg` occurs contiguously inside `l`. -/
def containsSeg (seg l : List Char) : Prop := ∃ p s, l = p ++ seg ++ s

/-! ## Stream reconfiguration (`ReconfigureRTSPStreams`)

The function is straight-line code in one goroutine; its outwardly visible
actions are recorded as an event trace so that ordering claims ("freed only
after ...") can be stated.  The bodies of `FFmpegProcess.Cleanup`,
`AllocateAnalysisBuffer`, `AllocateCaptureBuffer`, `RemoveAnalysisBuffer`
and `RemoveCaptureBuffer` live outside the provided sources and are
modelled from the spec where noted.  Resource exhaustion is modelled by
oracle lists `failAnalysis` / `failCapture` of sources whose allocation
fails. -/

/-- The two buffer kinds allocated per source. -/
inductive AllocKind
  | analysis
  | capture
deriving DecidableEq

/-- Observable actions of `ReconfigureRTSPStreams`.  `drainAck` is the
acknowledgment event the spec demands; it is part of the vocabulary so the
claim can be stated, and the embedding shows the code never emits it. -/
inductive Event
  | monitorStart
  | monitorStop
  | cleanup (url : String)
  | sleepMs (ms : Nat)
  | markInactive (url : String)
  | drainAck (url : String)
  | freeAnalysisBuf (url : String)
  | freeCaptureBuf (url : String)
  | allocAttempt (kind : AllocKind) (url : String)
  | allocOk (kind : AllocKind) (url : String)
  | spawn (url : String)
deriving DecidableEq

/-- The mutable state read and written by `ReconfigureRTSPStreams`:
the `ffmpegMonitor` global, the `activeStreams` map, the two buffer maps
and the `ffmpegProcesses` map, each reduced to its key set. -/
structure StreamState where
  monitor : Bool
  activeStreams : List String
  analysisBuffers : List String
  captureBuffers : List String
  processes : List String
deriving DecidableEq

/-- Modelled from the spec: `RemoveAnalysisBuffer` frees the source's
analysis buffer entry, or reports an error (merely logged by the caller)
when the source is unknown (§4.3, §7). -/
def removeAnalysisBuffer (url : String) (st : StreamState) : StreamState × List Event :=
  if url ∈ st.analysisBuffers then
    ({ st with analysisBuffers := st.analysisBuffers.filter fun x => x ≠ url },
      [Event.freeAnalysisBuf url])
  else (st, [])

/-- Modelled from the spec: `RemoveCaptureBuffer` frees the source's
capture buffer entry, or reports an error (merely logged by the caller)
when the source is unknown (§4.3, §7). -/
def removeCaptureBuffer (url : String) (st : StreamState) : StreamState × List Event :=
  if url ∈ st.captureBuffers then
    ({ st with captureBuffers := st.captureBuffers.filter fun x => x ≠ url },
      [Event.freeCaptureBuf url])
  else (st, [])

/-- One removal iteration of `ReconfigureRTSPStreams` for a source no longer
in the settings: `Cleanup` of the ffmpeg process if one exists (modelled
from the spec: it terminates the process and blocks until reaping, §4.2),
a fixed 100 ms sleep, deletion from `activeStreams`, another fixed 100 ms
sleep, then removal of the analysis and capture buffers. -/
def removeOne (url : String) (st : StreamState) : StreamState × List Event :=
  let p :=
    if url ∈ st.processes then
      ({ st with processes := st.processes.filter fun x => x ≠ url },
        [Event.cleanup url, Event.sleepMs 100])
    else (st, [])
  let st2 := { p.1 with activeStreams := p.1.activeStreams.filter fun x => x ≠ url }
  let q := removeAnalysisBuffer url st2
  let r := removeCaptureBuffer url q.1
  (r.1, p.2 ++ [Event.markInactive url, Event.sleepMs 100] ++ q.2 ++ r.2)

/-- The removal loop of `ReconfigureRTSPStreams`: every currently active
stream absent from the desired set is stopped and its buffers removed. -/
def removeAll (current desired : List String) (st : StreamState) : StreamState × List Event :=
  match current with
  | [] => (st, [])
  | url :: rest =>
    if url ∈ desired then removeAll rest desired st
    else
      let p := removeOne url st
      let q := removeAll rest desired p.1
      (q.1, p.2 ++ q.2)

/-- Modelled from the spec: `AllocateAnalysisBuffer` reserves a region for
the source; it fails on a duplicate reservation (`DuplicateSource`) or when
the source is resource-exhausted per the failure oracle (§4.3, §7).  The
Bool reports success. -/
def allocateAnalysisBuffer (failAnalysis : List String) (url : String) (st : StreamState) :
    StreamState × List Event × Bool :=
  if url ∈ st.analysisBuffers then (st, [Event.allocAttempt AllocKind.analysis url], false)
  else if url ∈ failAnalysis then (st, [Event.allocAttempt AllocKind.analysis url], false)
  else ({ st with analysisBuffers := url :: st.analysisBuffers },
    [Event.allocAttempt AllocKind.analysis url, Event.allocOk AllocKind.analysis url], true)

/-- Modelled from the spec: `AllocateCaptureBuffer`, as for the analysis
buffer (§4.3, §7). -/
def allocateCaptureBuffer (failCapture : List String) (url : String) (st : StreamState) :
    StreamState × List Event × Bool :=
  if url ∈ st.captureBuffers then (st, [Event.allocAttempt AllocKind.capture url], false)
  else if url ∈ failCapture then (st, [Event.allocAttempt AllocKind.capture url], false)
  else ({ st with captureBuffers := url :: st.captureBuffers },
    [Event.allocAttempt AllocKind.capture url, Event.allocOk AllocKind.capture url], true)

/-- One addition iteration of `ReconfigureRTSPStreams` for a desired source:
skip if already active; otherwise allocate the missing analysis buffer (on
failure, log and skip the source), then the missing capture buffer (on
failure the source removes the just-created buffer - calling
`RemoveCaptureBuffer`, a no-op slip in the source, since the freshly
created buffer is the analysis one - and skips), then mark the stream
active and spawn its capture goroutine. -/
def addOne (failAnalysis failCapture : List String) (url : String) (st : StreamState) :
    StreamState × List Event :=
  if url ∈ st.activeStreams then (st, [])
  else
    let abExists := url ∈ st.analysisBuffers
    let cbExists := url ∈ st.captureBuffers
    let pa :=
      if abExists then (st, ([], true))
      else
        let a := allocateAnalysisBuffer failAnalysis url st
        (a.1, (a.2.1, a.2.2))
    if pa.2.2 = false then (pa.1, pa.2.1)
    else
      let pc :=
        if cbExists then (pa.1, ([], true))
        else
          let a := allocateCaptureBuffer failCapture url pa.1
          (a.1, (a.2.1, a.2.2))
      if pc.2.2 = false then
        let pr := if abExists = false then removeCaptureBuffer url pc.1 else (pc.1, [])
        (pr.1, pa.2.1 ++ pc.2.1 ++ pr.2)
      else
        ({ pc.1 with activeStreams := url :: pc.1.activeStreams },
          pa.2.1 ++ pc.2.1 ++ [Event.spawn url])

/-- The addition loop of `ReconfigureRTSPStreams` over the desired URL
list. -/
def addAll (desired failAnalysis failCapture : List String) (st : StreamState) :
    StreamState × List Event :=
  match desired with
  | [] => (st, [])
  | url :: rest =>
    let p := addOne failAnalysis failCapture url st
    let q := addAll rest failAnalysis failCapture p.1
    (q.1, p.2 ++ q.2)

/-- Shallow embedding of `ReconfigureRTSPStreams(settings, ...)`: with no
desired URLs the monitor is stopped and nothing else happens; otherwise the
monitor is started if absent, streams no longer desired are removed, and
missing desired streams are allocated and started. -/
def reconfigure (desired failAnalysis failCapture : List String) (st : StreamState) :
    StreamState × List Event :=
  if desired = [] then
    if st.monitor then ({ st with monitor := false }, [Event.monitorStop]) else (st, [])
  else
    let p :=
      if st.monitor then (st, ([] : List Event))
      else ({ st with monitor := true }, [Event.monitorStart])
    let q := removeAll p.1.activeStreams desired p.1
    let r := addAll desired failAnalysis failCapture q.1
    (r.1, p.2 ++ q.2 ++ r.2)

/-- `precedesB a b log`: no occurrence of `b` appears before the first
occurrence of `a`; in particular every occurrence of `b` is preceded by an
earlier occurrence of `a`. -/
def precedesB (a b : Event) : List Event → Bool
  | [] => true
  | e :: rest => if e = b then false else if e = a then true else precedesB a b rest

/-! ## Theorems -/

theorem samplesOf_length (samples : List Nat) :
    (samplesOf samples).length = samples.length / 2 := by
  match samples with
  | [] => rfl
  | [b] => simp [samplesOf]
  | b0 :: b1 :: rest =>
    have ih := samplesOf_length rest
    simp only [samplesOf, List.length_cons, ih]
    omega

theorem samplesOf_ne_nil_lengths {samples : List Nat}
    (h : samplesOf samples ≠ []) :
    samples.length ≠ 0 ∧ samples.length / 2 ≠ 0 := by
  have hl := samplesOf_length samples
  constructor
  · intro h0
    have : samples = [] := List.length_eq_zero.mp h0
    subst this
    exact h rfl
  · intro h0
    apply h
    have : (samplesOf samples).length = 0 := by rw [hl, h0]
    exact List.length_eq_zero.mp this

theorem levelInt_clamp_mem (x : EReal) :
    0 ≤ levelInt (clampLevel x) ∧ levelInt (clampLevel x) ≤ 100 := by
  unfold clampLevel levelInt
  by_cases h1 : x < ((0 : ℝ) : EReal)
  · rw [if_pos h1, EReal.toReal_coe]
    norm_num
  · rw [if_neg h1]
    by_cases h2 : ((100 : ℝ) : EReal) < x
    · rw [if_pos h2, EReal.toReal_coe]
      norm_num
    · rw [if_neg h2]
      have hge : ((0 : ℝ) : EReal) ≤ x := le_of_not_lt h1
      have hle : x ≤ ((100 : ℝ) : EReal) := le_of_not_lt h2
      have hxbot : x ≠ ⊥ := by
        intro hb
        rw [hb] at hge
        exact absurd hge (not_le_of_lt (EReal.bot_lt_coe 0))
      have hxtop : x ≠ ⊤ := by
        intro ht
        rw [ht] at hle
        exact absurd hle (not_le_of_lt (EReal.coe_lt_top 100))
      have hlo : (0 : ℝ) ≤ x.toReal := by
        have := EReal.toReal_le_toReal hge (EReal.coe_ne_bot 0) hxtop
        rwa [EReal.toReal_coe] at this
      have hhi : x.toReal ≤ (100 : ℝ) := by
        have := EReal.toReal_le_toReal hle hxbot (EReal.coe_ne_top 100)
        rwa [EReal.toReal_coe] at this
      constructor
      · exact Int.floor_nonneg.mpr hlo
      · calc Int.floor x.toReal ≤ Int.floor (100 : ℝ) := Int.floor_le_floor hhi
          _ = 100 := by norm_num

theorem levelInt_clamp_ge_95 (x : EReal) (h : ((95 : ℝ) : EReal) ≤ x) :
    95 ≤ levelInt (clampLevel x) := by
  unfold clampLevel levelInt
  have h1 : ¬x < ((0 : ℝ) : EReal) := by
    intro hlt
    have : ((95 : ℝ) : EReal) < ((0 : ℝ) : EReal) := lt_of_le_of_lt h hlt
    rw [EReal.coe_lt_coe_iff] at this
    norm_num at this
  rw [if_neg h1]
  by_cases h2 : ((100 : ℝ) : EReal) < x
  · rw [if_pos h2, EReal.toReal_coe]
    norm_num
  · rw [if_neg h2]
    have hle : x ≤ ((100 : ℝ) : EReal) := le_of_not_lt h2
    have hxbot : x ≠ ⊥ := by
      intro hb
      rw [hb] at h
      exact absurd h (not_le_of_lt (EReal.bot_lt_coe 95))
    have hlo : (95 : ℝ) ≤ x.toReal := by
      have := EReal.toReal_le_toReal h (EReal.coe_ne_bot 95)
        (by intro ht; rw [ht] at hle; exact absurd hle (not_le_of_lt (EReal.coe_lt_top 100)))
      rwa [EReal.toReal_coe] at this
    exact Int.le_floor.mpr (by exact_mod_cast hlo)

theorem clampLevel_bot : clampLevel ⊥ = ((0 : ℝ) : EReal) := by
  unfold clampLevel
  rw [if_pos (EReal.bot_lt_coe 0)]

theorem levelInt_coe_zero : levelInt ((0 : ℝ) : EReal) = 0 := by
  unfold levelInt
  rw [EReal.toReal_coe]
  norm_num

theorem scaleDb_bot : scaleDb ⊥ = ⊥ := by
  unfold scaleDb
  rw [EReal.bot_add]
  apply EReal.bot_mul_of_pos
  rw [← EReal.coe_zero, EReal.coe_lt_coe_iff]
  norm_num

/-- C4: a chunk containing a 16-bit extreme sample (32767 or -32768) yields
clipping = true and a level of at least 95. -/
theorem calculateAudioLevel_clipping (samples : List Nat) (source name : String)
    (h : ∃ s ∈ samplesOf samples, s = 32767 ∨ s = -32768) :
    (calculateAudioLevel samples source name).Clipping = true ∧
      95 ≤ (calculateAudioLevel samples source name).Level := by
  obtain ⟨s, hs, hval⟩ := h
  have hne : samplesOf samples ≠ [] := by
    intro h0
    rw [h0] at hs
    exact absurd hs (List.not_mem_nil s)
  obtain ⟨hl0, hl2⟩ := samplesOf_ne_nil_lengths hne
  have hclip : hasClipping samples = true := by
    unfold hasClipping
    rw [List.any_eq_true]
    refine ⟨s, hs, ?_⟩
    rcases hval with h | h <;> simp [h]
  unfold calculateAudioLevel
  rw [if_neg hl0, if_neg hl2]
  simp only [hclip, if_true]
  exact ⟨trivial, levelInt_clamp_ge_95 _ (le_max_right _ _)⟩

/-- Witness for C4 at the concrete one-sample chunk `0x7FFF = 32767`. -/
theorem calculateAudioLevel_clipping_witness :
    (∃ s ∈ samplesOf [255, 127], s = 32767 ∨ s = -32768) ∧
      ((calculateAudioLevel [255, 127] "s" "n").Clipping = true ∧
        95 ≤ (calculateAudioLevel [255, 127] "s" "n").Level) :=
  ⟨by decide, calculateAudioLevel_clipping [255, 127] "s" "n" (by decide)⟩

/-- C5: a chunk whose 16-bit samples are all zero yields level 0 and
clipping = false. -/
theorem calculateAudioLevel_all_zero (samples : List Nat) (source name : String)
    (h : ∀ s ∈ samplesOf samples, s = 0) :
    (calculateAudioLevel samples source name).Level = 0 ∧
      (calculateAudioLevel samples source name).Clipping = false := by
  by_cases hl0 : samples.length = 0
  · simp [calculateAudioLevel, hl0]
  · by_cases hl2 : samples.length / 2 = 0
    · simp [calculateAudioLevel, hl0, hl2]
    · have hclip : hasClipping samples = false := by
        unfold hasClipping
        rw [List.any_eq_false]
        intro s hs
        rw [h s hs]
        decide
      have hsum : sumSquares samples = 0 := by
        unfold sumSquares
        apply List.sum_eq_zero
        intro x hx
        rw [List.mem_map] at hx
        obtain ⟨s, hs, rfl⟩ := hx
        rw [h s hs]
        ring
      have hrms : rmsOf samples = 0 := by
        unfold rmsOf
        rw [hsum]
        norm_num
      unfold calculateAudioLevel
      rw [if_neg hl0, if_neg hl2]
      simp only [hclip, hrms, if_false, Bool.false_eq_true]
      have hdb : dbOfRms 0 = ⊥ := by
        unfold dbOfRms
        rw [if_pos rfl]
      rw [hdb, scaleDb_bot, clampLevel_bot]
      exact ⟨levelInt_coe_zero, trivial⟩

/-- Witness for C5 at the concrete all-zero chunk `[0, 0]`. -/
theorem calculateAudioLevel_all_zero_witness :
    (∀ s ∈ samplesOf [0, 0], s = 0) ∧
      ((calculateAudioLevel [0, 0] "s" "n").Level = 0 ∧
        (calculateAudioLevel [0, 0] "s" "n").Clipping = false) :=
  ⟨by decide, calculateAudioLevel_all_zero [0, 0] "s" "n" (by decide)⟩

/-- C8: the computed level always lies in `[0, 100]`. -/
theorem calculateAudioLevel_level_range (samples : List Nat) (source name : String) :
    0 ≤ (calculateAudioLevel samples source name).Level ∧
      (calculateAudioLevel samples source name).Level ≤ 100 := by
  by_cases hl0 : samples.length = 0
  · simp [calculateAudioLevel, hl0]
  · by_cases hl2 : samples.length / 2 = 0
    · simp [calculateAudioLevel, hl0, hl2]
    · unfold calculateAudioLevel
      rw [if_neg hl0, if_neg hl2]
      exact levelInt_clamp_mem _

theorem samplesOf_dropLast_odd :
    ∀ samples : List Nat, samples.length % 2 = 1 →
      samplesOf samples.dropLast = samplesOf samples
  | [], h => by simp at h
  | [b], _ => by simp [samplesOf]
  | b0 :: b1 :: rest, h => by
    have hr : rest.length % 2 = 1 := by
      simp only [List.length_cons] at h
      omega
    have hne : rest ≠ [] := by
      intro h0
      rw [h0] at hr
      simp at hr
    obtain ⟨r, rs, rfl⟩ := List.exists_cons_of_ne_nil hne
    have hd : (b0 :: b1 :: r :: rs).dropLast = b0 :: b1 :: (r :: rs).dropLast := rfl
    rw [hd]
    simp only [samplesOf]
    rw [samplesOf_dropLast_odd (r :: rs) hr]

/-- C9: on a byte slice of odd length the level computation gives the same
result as on the slice with its final byte removed; the trailing unpaired
byte is ignored. -/
theorem calculateAudioLevel_odd_drops_last (samples : List Nat) (source name : String)
    (h : samples.length % 2 = 1) :
    calculateAudioLevel samples source name =
      calculateAudioLevel samples.dropLast source name := by
  have hlen : samples.dropLast.length = samples.length - 1 := List.length_dropLast samples
  by_cases h1 : samples.length = 1
  · obtain ⟨b, rfl⟩ := List.length_eq_one.mp h1
    simp [calculateAudioLevel]
  · have hs := samplesOf_dropLast_odd samples h
    have hc : samples.dropLast.length / 2 = samples.length / 2 := by omega
    have hz1 : samples.length ≠ 0 := by omega
    have hz2 : samples.dropLast.length ≠ 0 := by omega
    have hq : samples.length / 2 ≠ 0 := by omega
    have hq2 : samples.dropLast.length / 2 ≠ 0 := by omega
    have hclip : hasClipping samples.dropLast = hasClipping samples := by
      unfold hasClipping
      rw [hs]
    have hsum : sumSquares samples.dropLast = sumSquares samples := by
      unfold sumSquares
      rw [hs]
    have hrms : rmsOf samples.dropLast = rmsOf samples := by
      unfold rmsOf
      rw [hsum, hc]
    unfold calculateAudioLevel
    rw [if_neg hz1, if_neg hz2, if_neg hq, if_neg hq2, hclip, hrms]

/-- Witness for C9 at the concrete odd-length chunk `[1, 2, 3]`. -/
theorem calculateAudioLevel_odd_drops_last_witness :
    ([1, 2, 3] : List Nat).length % 2 = 1 ∧
      calculateAudioLevel [1, 2, 3] "s" "n" =
        calculateAudioLevel ([1, 2, 3] : List Nat).dropLast ("s") "n" :=
  ⟨by decide, calculateAudioLevel_odd_drops_last [1, 2, 3] "s" "n" (by decide)⟩

/-- C6 counterexample: at -30 dBFS (the midpoint of the claimed [-60, 0]
range) the source's rescaling gives 60 while the proportional map through
the endpoints -60 ↦ 0 and 0 ↦ 100 gives 50; intermediate dBFS values are
not mapped proportionally between those two endpoints. -/
theorem scaleDb_not_proportional_at_minus30 :
    scaleDb (((-30 : ℝ)) : EReal) = ((60 : ℝ) : EReal) ∧
      specProportionalScale (-30) = 50 ∧ (60 : ℝ) ≠ 50 := by
  refine ⟨?_, by unfold specProportionalScale; norm_num, by norm_num⟩
  unfold scaleDb
  rw [← EReal.coe_add, ← EReal.coe_mul, EReal.coe_eq_coe_iff]
  norm_num

/-- C6 amended: the rescaling is linear with slope 100/50 = 2, so -60 dBFS
maps to 0 and 0 dBFS maps to 120 before clamping, hence to 100 after the
clamp; values are proportional over [-60, -10], not over [-60, 0]. -/
theorem scaleDb_linear_slope_two (db : ℝ) :
    scaleDb ((db : ℝ) : EReal) = (((db + 60) * 2 : ℝ) : EReal) ∧
      scaleDb (((-60 : ℝ)) : EReal) = ((0 : ℝ) : EReal) ∧
      clampLevel (scaleDb ((0 : ℝ) : EReal)) = ((100 : ℝ) : EReal) := by
  have hgen : ∀ x : ℝ, scaleDb ((x : ℝ) : EReal) = (((x + 60) * 2 : ℝ) : EReal) := by
    intro x
    unfold scaleDb
    rw [← EReal.coe_add, ← EReal.coe_mul, EReal.coe_eq_coe_iff]
    norm_num
  refine ⟨hgen db, ?_, ?_⟩
  · rw [hgen (-60), EReal.coe_eq_coe_iff]
    norm_num
  · rw [hgen 0]
    unfold clampLevel
    rw [if_neg ?hneg, if_pos ?hpos]
    case hneg =>
      rw [not_lt, EReal.coe_le_coe_iff]
      norm_num
    case hpos =>
      rw [EReal.coe_lt_coe_iff]
      norm_num

theorem lookup_map_keyed {α : Type} (F : String × α → String × α)
    (hF : ∀ p, (F p).1 = p.1) :
    ∀ (l : List (String × α)) (k : String),
      (l.map F).lookup k = (l.lookup k).map fun v => (F (k, v)).2
  | [], _ => rfl
  | (k1, v1) :: rest, k => by
    by_cases hk : k = k1
    · subst hk
      have h1 : (F (k, v1)).1 = k := hF (k, v1)
      simp only [List.map_cons, List.lookup]
      rw [show F (k, v1) = ((F (k, v1)).1, (F (k, v1)).2) from rfl, h1]
      simp
    · simp only [List.map_cons, List.lookup]
      have h1 : (F (k1, v1)).1 = k1 := hF (k1, v1)
      rw [show F (k1, v1) = ((F (k1, v1)).1, (F (k1, v1)).2) from rfl, h1]
      have hbeq : (k == k1) = false := by
        rw [beq_eq_false_iff_ne]
        exact hk
      rw [hbeq]
      simp only [cond_false]
      exact lookup_map_keyed F hF rest k

/-- C7: a source whose last-update or last-non-zero timestamp is older than
the inactivity threshold gets its reported level set to 0 by
`checkSourceActivity`, while its entry (source and name) remains present in
the levels map. -/
theorem checkSourceActivity_zeroes_inactive (levels : List (String × AudioLevelData))
    (lastUpdateTime lastNonZeroTime : List (String × Int))
    (inactivityThreshold now : Int) (src : String) (d : AudioLevelData)
    (t1 t2 : Int)
    (hl : levels.lookup src = some d)
    (h1 : lastUpdateTime.lookup src = some t1)
    (h2 : lastNonZeroTime.lookup src = some t2)
    (hold : now - t1 > inactivityThreshold ∨ now - t2 > inactivityThreshold) :
    ∃ d', (checkSourceActivity levels lastUpdateTime lastNonZeroTime
            inactivityThreshold now).1.lookup src = some d' ∧
      d'.Level = 0 ∧ d'.Source = d.Source ∧ d'.Name = d.Name := by
  have hinact : isSourceInactive src now lastUpdateTime lastNonZeroTime
      inactivityThreshold = true := by
    unfold isSourceInactive
    rw [h1, h2]
    simp only [Bool.or_eq_true, decide_eq_true_eq]
    exact hold
  unfold checkSourceActivity
  have hkey : ∀ p : String × AudioLevelData,
      ((fun p : String × AudioLevelData =>
        if isSourceInactive p.1 now lastUpdateTime lastNonZeroTime inactivityThreshold
            && (p.2.Level != 0) then
          (p.1, { p.2 with Level := 0 })
        else p) p).1 = p.1 := by
    intro p
    by_cases hc : isSourceInactive p.1 now lastUpdateTime lastNonZeroTime inactivityThreshold
        && (p.2.Level != 0)
    · simp [hc]
    · simp [hc]
  rw [lookup_map_keyed _ hkey levels src, hl]
  by_cases hz : d.Level = 0
  · refine ⟨_, rfl, ?_⟩
    simp [hinact, hz]
  · refine ⟨_, rfl, ?_⟩
    simp [hinact, hz]

/-- Witness for C7: a source stale by 20 ticks against a threshold of 15
is zeroed but retained. -/
theorem checkSourceActivity_zeroes_inactive_witness :
    ((([("cam", (⟨7, false, "cam", "Camera 1"⟩ : AudioLevelData))] :
        List (String × AudioLevelData)).lookup ("cam") =
          some (⟨7, false, "cam", "Camera 1"⟩ : AudioLevelData)) ∧
      ([("cam", (0 : Int))].lookup ("cam") = some 0) ∧
      ([("cam", (0 : Int))].lookup ("cam") = some 0) ∧
      ((20 : Int) - 0 > 15 ∨ (20 : Int) - 0 > 15)) ∧
    (∃ d', (checkSourceActivity
        [("cam", (⟨7, false, "cam", "Camera 1"⟩ : AudioLevelData))]
        [("cam", (0 : Int))] [("cam", (0 : Int))] 15 20).1.lookup ("cam") = some d' ∧
      d'.Level = 0 ∧ d'.Source = "cam" ∧ d'.Name = "Camera 1") :=
  ⟨⟨by decide, by decide, by decide, by decide⟩,
    checkSourceActivity_zeroes_inactive _ _ _ 15 20 ("cam") ⟨7, false, "cam", "Camera 1"⟩
      0 0 (by decide) (by decide) (by decide) (by decide)⟩

theorem findCharIdx_append_of_not_mem (c : Char) :
    ∀ (l1 l2 : List Char), c ∉ l1 →
      findCharIdx c (l1 ++ l2) = (findCharIdx c l2).map fun k => l1.length + k
  | [], l2, _ => by
    simp only [List.nil_append, List.length_nil]
    cases findCharIdx c l2 <;> simp
  | x :: rest, l2, h => by
    have hx : x ≠ c := fun hxc => h (hxc ▸ List.mem_cons_self x rest)
    have hrest : c ∉ rest := fun hm => h (List.mem_cons_of_mem x hm)
    have ih := findCharIdx_append_of_not_mem c rest l2 hrest
    simp only [List.cons_append, findCharIdx, if_neg hx, List.append_eq]
    rw [ih]
    cases findCharIdx c l2 with
    | none => rfl
    | some k =>
      simp only [Option.map_some', List.length_cons]
      congr 1
      omega

theorem rtspScheme_length : rtspScheme.length = 7 := rfl

theorem drop_seven_scheme (t : List Char) : (rtspScheme ++ t).drop 7 = t := by
  have := List.drop_left rtspScheme t
  rwa [rtspScheme_length] at this

/-- The credential segment before the first `@` does not reach the output of
`cleanRTSPUrl`: the result is the scheme followed by the host portion of the
text after the `@`. -/
theorem cleanRTSPUrl_strips_cred (cred rest : List Char) (hc : '@' ∉ cred) :
    cleanRTSPUrl (rtspScheme ++ cred ++ '@' :: rest) = rtspScheme ++ hostPart rest := by
  have hat : findCharFrom (rtspScheme ++ cred ++ '@' :: rest) 7 '@' =
      some (7 + cred.length) := by
    unfold findCharFrom
    rw [List.append_assoc, drop_seven_scheme (cred ++ '@' :: rest),
      findCharIdx_append_of_not_mem '@' cred ('@' :: rest) hc]
    simp [findCharIdx]
  have hdrop : (rtspScheme ++ cred ++ '@' :: rest).drop (7 + cred.length + 1) = rest := by
    have hform : rtspScheme ++ cred ++ '@' :: rest =
        (rtspScheme ++ cred ++ ['@']) ++ rest := by simp
    have hlen : (rtspScheme ++ cred ++ ['@']).length = 7 + cred.length + 1 := by
      simp [rtspScheme_length]
      omega
    rw [hform, ← hlen, List.drop_left]
  unfold cleanRTSPUrl
  rw [hat]
  simp only [hdrop]
  have hslash : findCharFrom (rtspScheme ++ rest) 7 '/' =
      (findCharIdx '/' rest).map fun k => 7 + k := by
    unfold findCharFrom
    rw [drop_seven_scheme rest]
  rw [hslash]
  unfold hostPart
  cases hfi : findCharIdx '/' rest with
  | none => simp
  | some j =>
    simp only [Option.map_some']
    rw [List.take_append_eq_append_take]
    have h1 : rtspScheme.take (7 + j) = rtspScheme :=
      List.take_of_length_le (by rw [rtspScheme_length]; omega)
    have h2 : 7 + j - rtspScheme.length = j := by rw [rtspScheme_length]; omega
    rw [h1, h2]

/-- C10 amended: the cleaned display string is independent of the credential
segment (identical for any two credentials) and equals the scheme plus the
host portion after the `@`; the credential segment is omitted positionally,
though a short credential may coincidentally reoccur inside the scheme or
host text. -/
theorem cleanRTSPUrl_cred_independent (c1 c2 rest : List Char)
    (h1 : '@' ∉ c1) (h2 : '@' ∉ c2) :
    cleanRTSPUrl (rtspScheme ++ c1 ++ '@' :: rest) =
        cleanRTSPUrl (rtspScheme ++ c2 ++ '@' :: rest) ∧
      cleanRTSPUrl (rtspScheme ++ c1 ++ '@' :: rest) = rtspScheme ++ hostPart rest := by
  have a1 := cleanRTSPUrl_strips_cred c1 rest h1
  have a2 := cleanRTSPUrl_strips_cred c2 rest h2
  exact ⟨a1.trans a2.symm, a1⟩

/-- Witness for C10's amended theorem at two concrete credentialed URLs. -/
theorem cleanRTSPUrl_cred_independent_witness :
    ('@' ∉ "user1".toList ∧ '@' ∉ "user2:pw".toList) ∧
      (cleanRTSPUrl (rtspScheme ++ "user1".toList ++ '@' :: "host:554/stream".toList) =
          cleanRTSPUrl (rtspScheme ++ "user2:pw".toList ++ '@' :: "host:554/stream".toList) ∧
        cleanRTSPUrl (rtspScheme ++ "user1".toList ++ '@' :: "host:554/stream".toList) =
          rtspScheme ++ hostPart ("host:554/stream").toList) :=
  ⟨⟨by decide, by decide⟩,
    cleanRTSPUrl_cred_independent ("user1").toList ("user2:pw").toList
      "host:554/stream".toList (by decide) (by decide)⟩

/-- C10 counterexample: for the URL `rtsp://r@h` with credential segment
`r`, the cleaned string `rtsp://h` still contains the credential segment as
a substring, so "the result does not contain the credential segment" fails
as stated. -/
theorem cleanRTSPUrl_output_can_contain_cred :
    cleanRTSPUrl ("rtsp://r@h").toList = "rtsp://h".toList ∧
      containsSeg ['r'] "rtsp://h".toList := by
  constructor
  · decide
  · exact ⟨[], "tsp://h".toList, by decide⟩

theorem precedesB_of_not_mem {a b : Event} :
    ∀ {l : List Event}, b ∉ l → precedesB a b l = true
  | [], _ => rfl
  | e :: rest, h => by
    have he : e ≠ b := fun hb => h (hb ▸ List.mem_cons_self e rest)
    have hrest : b ∉ rest := fun hm => h (List.mem_cons_of_mem e hm)
    unfold precedesB
    rw [if_neg he]
    by_cases ha : e = a
    · rw [if_pos ha]
    · rw [if_neg ha]
      exact precedesB_of_not_mem hrest

theorem precedesB_append_left {a b : Event} :
    ∀ {l1 : List Event} {l2 : List Event}, b ∉ l1 → precedesB a b l2 = true →
      precedesB a b (l1 ++ l2) = true
  | [], _, _, h2 => h2
  | e :: rest, l2, h, h2 => by
    have he : e ≠ b := fun hb => h (hb ▸ List.mem_cons_self e rest)
    have hrest : b ∉ rest := fun hm => h (List.mem_cons_of_mem e hm)
    simp only [List.cons_append]
    unfold precedesB
    rw [if_neg he]
    by_cases ha : e = a
    · rw [if_pos ha]
    · rw [if_neg ha]
      exact precedesB_append_left hrest h2

theorem precedesB_append_of_found {a b : Event} :
    ∀ {l1 : List Event} (l2 : List Event), a ∈ l1 → precedesB a b l1 = true →
      precedesB a b (l1 ++ l2) = true
  | [], _, hmem, _ => absurd hmem (List.not_mem_nil a)
  | e :: rest, l2, hmem, h1 => by
    have he : e ≠ b := by
      intro hb
      unfold precedesB at h1
      rw [if_pos hb] at h1
      exact Bool.false_ne_true h1
    simp only [List.cons_append]
    unfold precedesB
    rw [if_neg he]
    by_cases ha : e = a
    · rw [if_pos ha]
    · rw [if_neg ha]
      unfold precedesB at h1
      rw [if_neg he, if_neg ha] at h1
      have hmem2 : a ∈ rest := by
        rcases List.mem_cons.mp hmem with h | h
        · exact absurd h.symm ha
        · exact h
      exact precedesB_append_of_found l2 hmem2 h1

theorem filter_ne_of_not_mem {l : List String} {u : String} (h : u ∉ l) :
    (l.filter fun x => x ≠ u) = l := by
  apply List.filter_eq_self.mpr
  intro a ha
  simp only [ne_eq, decide_not, Bool.not_eq_eq_eq_not, Bool.not_true, decide_eq_false_iff_not]
  intro he
  exact h (he ▸ ha)

theorem filter_not_decide_of_not_mem {l : List String} {u : String} (h : u ∉ l) :
    (l.filter fun x => !decide (x = u)) = l := by
  have := filter_ne_of_not_mem h
  simpa [ne_eq] using this

theorem not_mem_filter_self {l : List String} {u : String} :
    u ∉ l.filter fun x => x ≠ u := by
  intro hm
  have := List.of_mem_filter hm
  simp at this

theorem mem_filter_ne {l : List String} {u w : String} (h : u ∈ l) (hne : u ≠ w) :
    u ∈ l.filter fun x => x ≠ w := by
  apply List.mem_filter.mpr
  exact ⟨h, by simp [hne]⟩

theorem removeOne_state (url : String) (st : StreamState) :
    (removeOne url st).1 = ⟨st.monitor,
      st.activeStreams.filter fun x => x ≠ url,
      st.analysisBuffers.filter fun x => x ≠ url,
      st.captureBuffers.filter fun x => x ≠ url,
      st.processes.filter fun x => x ≠ url⟩ := by
  unfold removeOne removeAnalysisBuffer removeCaptureBuffer
  by_cases h1 : url ∈ st.processes <;>
    by_cases h2 : url ∈ st.analysisBuffers <;>
      by_cases h3 : url ∈ st.captureBuffers <;>
        simp_all [filter_not_decide_of_not_mem]

theorem removeOne_events (url : String) (st : StreamState) :
    (removeOne url st).2 =
      (if url ∈ st.processes then [Event.cleanup url, Event.sleepMs 100] else []) ++
        [Event.markInactive url, Event.sleepMs 100] ++
        (if url ∈ st.analysisBuffers then [Event.freeAnalysisBuf url] else []) ++
        (if url ∈ st.captureBuffers then [Event.freeCaptureBuf url] else []) := by
  unfold removeOne removeAnalysisBuffer removeCaptureBuffer
  by_cases h1 : url ∈ st.processes <;>
    by_cases h2 : url ∈ st.analysisBuffers <;>
      by_cases h3 : url ∈ st.captureBuffers <;>
        simp_all

theorem removeAll_nil (desired : List String) (st : StreamState) :
    removeAll [] desired st = (st, []) := rfl

theorem removeAll_cons_skip {w : String} {desired : List String} (rest : List String)
    (st : StreamState) (hw : w ∈ desired) :
    removeAll (w :: rest) desired st = removeAll rest desired st := by
  conv_lhs => unfold removeAll
  rw [if_pos hw]

theorem removeAll_cons_rm {w : String} {desired : List String} (rest : List String)
    (st : StreamState) (hw : w ∉ desired) :
    removeAll (w :: rest) desired st =
      ((removeAll rest desired (removeOne w st).1).1,
        (removeOne w st).2 ++ (removeAll rest desired (removeOne w st).1).2) := by
  conv_lhs => unfold removeAll
  rw [if_neg hw]

theorem removeOne_mem_of_ne {u w : String} {st : StreamState} (h : u ≠ w) :
    ((u ∈ (removeOne w st).1.activeStreams ↔ u ∈ st.activeStreams) ∧
      (u ∈ (removeOne w st).1.analysisBuffers ↔ u ∈ st.analysisBuffers) ∧
      (u ∈ (removeOne w st).1.captureBuffers ↔ u ∈ st.captureBuffers) ∧
      (u ∈ (removeOne w st).1.processes ↔ u ∈ st.processes)) := by
  rw [removeOne_state]
  refine ⟨?_, ?_, ?_, ?_⟩ <;>
    exact ⟨fun hm => (List.mem_filter.mp hm).1, fun hm => mem_filter_ne hm h⟩

theorem removeAll_state_sub :
    ∀ (current : List String) (desired : List String) (st : StreamState) (u : String),
      (u ∈ (removeAll current desired st).1.activeStreams → u ∈ st.activeStreams) ∧
        (u ∈ (removeAll current desired st).1.analysisBuffers → u ∈ st.analysisBuffers) ∧
        (u ∈ (removeAll current desired st).1.captureBuffers → u ∈ st.captureBuffers) ∧
        (u ∈ (removeAll current desired st).1.processes → u ∈ st.processes) ∧
        (removeAll current desired st).1.monitor = st.monitor
  | [], desired, st, u => by simp [removeAll_nil]
  | w :: rest, desired, st, u => by
    by_cases hw : w ∈ desired
    · rw [removeAll_cons_skip rest st hw]
      exact removeAll_state_sub rest desired st u
    · rw [removeAll_cons_rm rest st hw]
      have ih := removeAll_state_sub rest desired (removeOne w st).1 u
      have hst := removeOne_state w st
      refine ⟨?_, ?_, ?_, ?_, ?_⟩
      · intro hm
        have h1 := ih.1 hm
        rw [hst] at h1
        exact (List.mem_filter.mp h1).1
      · intro hm
        have h1 := ih.2.1 hm
        rw [hst] at h1
        exact (List.mem_filter.mp h1).1
      · intro hm
        have h1 := ih.2.2.1 hm
        rw [hst] at h1
        exact (List.mem_filter.mp h1).1
      · intro hm
        have h1 := ih.2.2.2.1 hm
        rw [hst] at h1
        exact (List.mem_filter.mp h1).1
      · have h2 : (removeOne w st).1.monitor = st.monitor := by rw [hst]
        exact ih.2.2.2.2.trans h2

theorem removeAll_keeps_desired :
    ∀ (current : List String) {desired : List String} {st : StreamState} {u : String},
      u ∈ st.activeStreams → u ∈ desired →
        u ∈ (removeAll current desired st).1.activeStreams
  | [], _, st, u, hm, _ => by rw [removeAll_nil]; exact hm
  | w :: rest, desired, st, u, hm, hd => by
    by_cases hw : w ∈ desired
    · rw [removeAll_cons_skip rest st hw]
      exact removeAll_keeps_desired rest hm hd
    · rw [removeAll_cons_rm rest st hw]
      have hne : u ≠ w := fun he => hw (he ▸ hd)
      have hm2 : u ∈ (removeOne w st).1.activeStreams :=
        ((removeOne_mem_of_ne hne).1).mpr hm
      exact removeAll_keeps_desired rest hm2 hd

theorem removeAll_drops_undesired :
    ∀ (current : List String) {desired : List String} {st : StreamState} {u : String},
      u ∈ current → u ∉ desired →
        u ∉ (removeAll current desired st).1.activeStreams
  | [], _, _, u, hm, _ => absurd hm (List.not_mem_nil u)
  | w :: rest, desired, st, u, hm, hd => by
    by_cases hw : w ∈ desired
    · have hne : u ≠ w := fun he => hd (he ▸ hw)
      have hm2 : u ∈ rest := by
        rcases List.mem_cons.mp hm with h | h
        · exact absurd h hne
        · exact h
      rw [removeAll_cons_skip rest st hw]
      exact removeAll_drops_undesired rest hm2 hd
    · rw [removeAll_cons_rm rest st hw]
      by_cases heq : u = w
      · subst heq
        intro hmem
        have h1 := (removeAll_state_sub rest desired (removeOne u st).1 u).1 hmem
        rw [removeOne_state] at h1
        exact not_mem_filter_self h1
      · have hm2 : u ∈ rest := by
          rcases List.mem_cons.mp hm with h | h
          · exact absurd h heq
          · exact h
        exact removeAll_drops_undesired rest hm2 hd

theorem removeAll_noop :
    ∀ (current : List String) {desired : List String} (st : StreamState),
      (∀ u ∈ current, u ∈ desired) → removeAll current desired st = (st, [])
  | [], _, st, _ => removeAll_nil _ st
  | w :: rest, desired, st, h => by
    rw [removeAll_cons_skip rest st (h w (List.mem_cons_self w rest))]
    exact removeAll_noop rest st fun u hu => h u (List.mem_cons_of_mem w hu)

theorem addAll_nil (failAnalysis failCapture : List String) (st : StreamState) :
    addAll [] failAnalysis failCapture st = (st, []) := rfl

theorem addAll_cons (failAnalysis failCapture : List String) (w : String)
    (rest : List String) (st : StreamState) :
    addAll (w :: rest) failAnalysis failCapture st =
      ((addAll rest failAnalysis failCapture (addOne failAnalysis failCapture w st).1).1,
        (addOne failAnalysis failCapture w st).2 ++
          (addAll rest failAnalysis failCapture (addOne failAnalysis failCapture w st).1).2) := by
  conv_lhs => unfold addAll

theorem addOne_skip (failAnalysis failCapture : List String) {w : String} {st : StreamState}
    (h : w ∈ st.activeStreams) : addOne failAnalysis failCapture w st = (st, []) := by
  unfold addOne
  rw [if_pos h]

theorem addOne_monitor (failAnalysis failCapture : List String) (w : String) (st : StreamState) :
    (addOne failAnalysis failCapture w st).1.monitor = st.monitor := by
  unfold addOne allocateAnalysisBuffer allocateCaptureBuffer removeCaptureBuffer
  by_cases hA : w ∈ st.activeStreams <;>
    by_cases hAB : w ∈ st.analysisBuffers <;>
      by_cases hCB : w ∈ st.captureBuffers <;>
        by_cases hFA : w ∈ failAnalysis <;>
          by_cases hFC : w ∈ failCapture <;>
            simp_all

theorem addOne_active_mono (failAnalysis failCapture : List String) {u w : String}
    {st : StreamState} (h : u ∈ st.activeStreams) :
    u ∈ (addOne failAnalysis failCapture w st).1.activeStreams := by
  unfold addOne allocateAnalysisBuffer allocateCaptureBuffer removeCaptureBuffer
  by_cases hA : w ∈ st.activeStreams <;>
    by_cases hAB : w ∈ st.analysisBuffers <;>
      by_cases hCB : w ∈ st.captureBuffers <;>
        by_cases hFA : w ∈ failAnalysis <;>
          by_cases hFC : w ∈ failCapture <;>
            simp_all

theorem addOne_active_sub (failAnalysis failCapture : List String) {u w : String}
    {st : StreamState} (h : u ∈ (addOne failAnalysis failCapture w st).1.activeStreams) :
    u ∈ st.activeStreams ∨ u = w := by
  unfold addOne allocateAnalysisBuffer allocateCaptureBuffer removeCaptureBuffer at h
  by_cases hA : w ∈ st.activeStreams <;>
    by_cases hAB : w ∈ st.analysisBuffers <;>
      by_cases hCB : w ∈ st.captureBuffers <;>
        by_cases hFA : w ∈ failAnalysis <;>
          by_cases hFC : w ∈ failCapture <;>
            simp_all <;> tauto

theorem addOne_ab_of_ne (failAnalysis failCapture : List String) {u w : String}
    {st : StreamState} (hne : u ≠ w) :
    (u ∈ (addOne failAnalysis failCapture w st).1.analysisBuffers ↔
      u ∈ st.analysisBuffers) := by
  unfold addOne allocateAnalysisBuffer allocateCaptureBuffer removeCaptureBuffer
  by_cases hA : w ∈ st.activeStreams <;>
    by_cases hAB : w ∈ st.analysisBuffers <;>
      by_cases hCB : w ∈ st.captureBuffers <;>
        by_cases hFA : w ∈ failAnalysis <;>
          by_cases hFC : w ∈ failCapture <;>
            simp_all

theorem addOne_active_success {failAnalysis failCapture : List String} {w : String}
    (st : StreamState) (h1 : w ∉ failAnalysis) (h2 : w ∉ failCapture) :
    w ∈ (addOne failAnalysis failCapture w st).1.activeStreams := by
  unfold addOne allocateAnalysisBuffer allocateCaptureBuffer removeCaptureBuffer
  by_cases hA : w ∈ st.activeStreams <;>
    by_cases hAB : w ∈ st.analysisBuffers <;>
      by_cases hCB : w ∈ st.captureBuffers <;>
        simp_all

theorem addOne_skip_fail {failAnalysis : List String} (failCapture : List String)
    {w : String} {st : StreamState}
    (h1 : w ∉ st.activeStreams) (h2 : w ∉ st.analysisBuffers) (h3 : w ∈ failAnalysis) :
    addOne failAnalysis failCapture w st =
      (st, [Event.allocAttempt AllocKind.analysis w]) := by
  unfold addOne allocateAnalysisBuffer
  simp [h1, h2, h3]

theorem addOne_spawn_of_ne (failAnalysis failCapture : List String) {u w : String}
    {st : StreamState} (hne : u ≠ w) :
    Event.spawn u ∉ (addOne failAnalysis failCapture w st).2 := by
  unfold addOne allocateAnalysisBuffer allocateCaptureBuffer removeCaptureBuffer
  by_cases hA : w ∈ st.activeStreams <;>
    by_cases hAB : w ∈ st.analysisBuffers <;>
      by_cases hCB : w ∈ st.captureBuffers <;>
        by_cases hFA : w ∈ failAnalysis <;>
          by_cases hFC : w ∈ failCapture <;>
            simp_all

theorem addOne_no_drainAck (failAnalysis failCapture : List String) (v w : String)
    (st : StreamState) :
    Event.drainAck v ∉ (addOne failAnalysis failCapture w st).2 := by
  unfold addOne allocateAnalysisBuffer allocateCaptureBuffer removeCaptureBuffer
  by_cases hA : w ∈ st.activeStreams <;>
    by_cases hAB : w ∈ st.analysisBuffers <;>
      by_cases hCB : w ∈ st.captureBuffers <;>
        by_cases hFA : w ∈ failAnalysis <;>
          by_cases hFC : w ∈ failCapture <;>
            simp_all

theorem addOne_attempt_mem (failAnalysis failCapture : List String) {w : String}
    {st : StreamState} (h1 : w ∉ st.activeStreams) (h2 : w ∉ st.analysisBuffers) :
    Event.allocAttempt AllocKind.analysis w ∈ (addOne failAnalysis failCapture w st).2 := by
  unfold addOne allocateAnalysisBuffer allocateCaptureBuffer removeCaptureBuffer
  by_cases hCB : w ∈ st.captureBuffers <;>
    by_cases hFA : w ∈ failAnalysis <;>
      by_cases hFC : w ∈ failCapture <;>
        simp_all

theorem addAll_monitor :
    ∀ (urls failAnalysis failCapture : List String) (st : StreamState),
      (addAll urls failAnalysis failCapture st).1.monitor = st.monitor
  | [], fA, fC, st => by rw [addAll_nil]
  | w :: rest, fA, fC, st => by
    rw [addAll_cons]
    exact (addAll_monitor rest fA fC _).trans (addOne_monitor fA fC w st)

theorem addAll_active_mono :
    ∀ (urls : List String) {failAnalysis failCapture : List String} {u : String}
      {st : StreamState}, u ∈ st.activeStreams →
        u ∈ (addAll urls failAnalysis failCapture st).1.activeStreams
  | [], _, _, _, st, h => by rw [addAll_nil]; exact h
  | w :: rest, fA, fC, u, st, h => by
    rw [addAll_cons]
    exact addAll_active_mono rest (addOne_active_mono fA fC h)

theorem addAll_active_sub :
    ∀ (urls : List String) {failAnalysis failCapture : List String} {u : String}
      {st : StreamState},
      u ∈ (addAll urls failAnalysis failCapture st).1.activeStreams →
        u ∈ st.activeStreams ∨ u ∈ urls
  | [], _, _, u, st, h => by rw [addAll_nil] at h; exact Or.inl h
  | w :: rest, fA, fC, u, st, h => by
    rw [addAll_cons] at h
    rcases addAll_active_sub rest h with h1 | h1
    · rcases addOne_active_sub fA fC h1 with h2 | h2
      · exact Or.inl h2
      · exact Or.inr (h2 ▸ List.mem_cons_self w rest)
    · exact Or.inr (List.mem_cons_of_mem w h1)

theorem addAll_success :
    ∀ (urls : List String) {failAnalysis failCapture : List String} {u : String}
      (st : StreamState), u ∈ urls → u ∉ failAnalysis → u ∉ failCapture →
        u ∈ (addAll urls failAnalysis failCapture st).1.activeStreams
  | [], _, _, u, _, hm, _, _ => absurd hm (List.not_mem_nil u)
  | w :: rest, fA, fC, u, st, hm, h1, h2 => by
    rw [addAll_cons]
    by_cases heq : u = w
    · subst heq
      exact addAll_active_mono rest (addOne_active_success st h1 h2)
    · have hm2 : u ∈ rest := by
        rcases List.mem_cons.mp hm with h | h
        · exact absurd h heq
        · exact h
      exact addAll_success rest _ hm2 h1 h2

theorem addAll_noop :
    ∀ (urls : List String) (failAnalysis failCapture : List String) (st : StreamState),
      (∀ u ∈ urls, u ∈ st.activeStreams) →
        addAll urls failAnalysis failCapture st = (st, [])
  | [], fA, fC, st, _ => addAll_nil fA fC st
  | w :: rest, fA, fC, st, h => by
    rw [addAll_cons, addOne_skip fA fC (h w (List.mem_cons_self w rest))]
    rw [addAll_noop rest fA fC st fun u hu => h u (List.mem_cons_of_mem w hu)]
    rfl

theorem addAll_fail_invariant :
    ∀ (urls : List String) {failAnalysis : List String} (failCapture : List String)
      {u : String} {st : StreamState},
      u ∈ failAnalysis → u ∉ st.activeStreams → u ∉ st.analysisBuffers →
        u ∉ (addAll urls failAnalysis failCapture st).1.activeStreams ∧
          u ∉ (addAll urls failAnalysis failCapture st).1.analysisBuffers ∧
          Event.spawn u ∉ (addAll urls failAnalysis failCapture st).2
  | [], fA, fC, u, st, _, h1, h2 => by
    rw [addAll_nil]
    exact ⟨h1, h2, List.not_mem_nil _⟩
  | w :: rest, fA, fC, u, st, hfa, h1, h2 => by
    rw [addAll_cons]
    by_cases heq : u = w
    · subst heq
      rw [addOne_skip_fail fC h1 h2 hfa]
      have ih := addAll_fail_invariant rest fC hfa h1 h2
      refine ⟨ih.1, ih.2.1, ?_⟩
      intro hm
      rcases List.mem_append.mp hm with h | h
      · simp at h
      · exact ih.2.2 h
    · have h1' : u ∉ (addOne fA fC w st).1.activeStreams := by
        intro hm
        rcases addOne_active_sub fA fC hm with h | h
        · exact h1 h
        · exact heq h
      have h2' : u ∉ (addOne fA fC w st).1.analysisBuffers := by
        intro hm
        exact h2 ((addOne_ab_of_ne fA fC heq).mp hm)
      have ih := addAll_fail_invariant rest fC hfa h1' h2'
      refine ⟨ih.1, ih.2.1, ?_⟩
      intro hm
      rcases List.mem_append.mp hm with h | h
      · exact addOne_spawn_of_ne fA fC heq h
      · exact ih.2.2 h

theorem addAll_attempt_mem :
    ∀ (urls : List String) (failAnalysis failCapture : List String)
      {u : String} {st : StreamState},
      u ∈ urls → u ∉ st.activeStreams → u ∉ st.analysisBuffers →
        Event.allocAttempt AllocKind.analysis u ∈
          (addAll urls failAnalysis failCapture st).2
  | [], _, _, u, _, hm, _, _ => absurd hm (List.not_mem_nil u)
  | w :: rest, fA, fC, u, st, hm, h1, h2 => by
    rw [addAll_cons]
    by_cases heq : u = w
    · subst heq
      exact List.mem_append.mpr (Or.inl (addOne_attempt_mem fA fC h1 h2))
    · have hm2 : u ∈ rest := by
        rcases List.mem_cons.mp hm with h | h
        · exact absurd h heq
        · exact h
      have h1' : u ∉ (addOne fA fC w st).1.activeStreams := by
        intro hmem
        rcases addOne_active_sub fA fC hmem with h | h
        · exact h1 h
        · exact heq h
      have h2' : u ∉ (addOne fA fC w st).1.analysisBuffers := by
        intro hmem
        exact h2 ((addOne_ab_of_ne fA fC heq).mp hmem)
      exact List.mem_append.mpr (Or.inr (addAll_attempt_mem rest fA fC hm2 h1' h2'))

theorem addAll_no_drainAck :
    ∀ (urls failAnalysis failCapture : List String) (v : String) (st : StreamState),
      Event.drainAck v ∉ (addAll urls failAnalysis failCapture st).2
  | [], _, _, v, st => by rw [addAll_nil]; exact List.not_mem_nil _
  | w :: rest, fA, fC, v, st => by
    rw [addAll_cons]
    intro hm
    rcases List.mem_append.mp hm with h | h
    · exact addOne_no_drainAck fA fC v w st h
    · exact addAll_no_drainAck rest fA fC v _ h

theorem reconfigure_eq_mon {desired : List String} (failAnalysis failCapture : List String)
    {st : StreamState} (hd : desired ≠ []) (hm : st.monitor = true) :
    reconfigure desired failAnalysis failCapture st =
      ((addAll desired failAnalysis failCapture
          (removeAll st.activeStreams desired st).1).1,
        (removeAll st.activeStreams desired st).2 ++
          (addAll desired failAnalysis failCapture
            (removeAll st.activeStreams desired st).1).2) := by
  unfold reconfigure
  rw [if_neg hd, if_pos hm]
  simp

theorem reconfigure_eq_nomon {desired : List String} (failAnalysis failCapture : List String)
    {st : StreamState} (hd : desired ≠ []) (hm : st.monitor = false) :
    reconfigure desired failAnalysis failCapture st =
      ((addAll desired failAnalysis failCapture
          (removeAll st.activeStreams desired { st with monitor := true }).1).1,
        Event.monitorStart ::
          ((removeAll st.activeStreams desired { st with monitor := true }).2 ++
            (addAll desired failAnalysis failCapture
              (removeAll st.activeStreams desired { st with monitor := true }).1).2)) := by
  unfold reconfigure
  rw [if_neg hd, if_neg (by rw [hm]; exact Bool.false_ne_true)]
  simp

theorem reconfigure_post (desired failAnalysis failCapture : List String)
    (st : StreamState) (hd : desired ≠ []) :
    (reconfigure desired failAnalysis failCapture st).1.monitor = true ∧
      (∀ u ∈ (reconfigure desired failAnalysis failCapture st).1.activeStreams,
        u ∈ desired) ∧
      (∀ u ∈ desired, u ∉ failAnalysis → u ∉ failCapture →
        u ∈ (reconfigure desired failAnalysis failCapture st).1.activeStreams) := by
  by_cases hm : st.monitor = true
  · rw [reconfigure_eq_mon failAnalysis failCapture hd hm]
    refine ⟨?_, ?_, ?_⟩
    · exact (addAll_monitor desired failAnalysis failCapture _).trans
        (((removeAll_state_sub st.activeStreams desired st ("")).2.2.2.2).trans hm)
    · intro u hu
      rcases addAll_active_sub desired hu with h1 | h1
      · have h2 := (removeAll_state_sub st.activeStreams desired st u).1 h1
        by_contra hnd
        exact removeAll_drops_undesired st.activeStreams h2 hnd h1
      · exact h1
    · intro u hu h1 h2
      exact addAll_success desired _ hu h1 h2
  · have hm' : st.monitor = false := Bool.not_eq_true _ ▸ Bool.of_not_eq_true hm
    rw [reconfigure_eq_nomon failAnalysis failCapture hd hm']
    refine ⟨?_, ?_, ?_⟩
    · exact (addAll_monitor desired failAnalysis failCapture _).trans
        ((removeAll_state_sub st.activeStreams desired { st with monitor := true } "").2.2.2.2)
    · intro u hu
      rcases addAll_active_sub desired hu with h1 | h1
      · have h2 := (removeAll_state_sub st.activeStreams desired
          { st with monitor := true } u).1 h1
        by_contra hnd
        exact removeAll_drops_undesired st.activeStreams h2 hnd h1
      · exact h1
    · intro u hu h1 h2
      exact addAll_success desired _ hu h1 h2

/-- C2: reconfiguring a second time with an unchanged desired set (after a
first reconfigure in which no allocation failed) changes nothing and emits
no events at all - in particular zero buffer allocations and zero process
spawns, whatever the failure oracles of the second call. -/
theorem reconfigure_idempotent (desired failAnalysis failCapture : List String)
    (st : StreamState) :
    reconfigure desired failAnalysis failCapture (reconfigure desired [] [] st).1 =
      ((reconfigure desired [] [] st).1, []) := by
  by_cases hd : desired = []
  · subst hd
    by_cases hm : st.monitor = true <;>
      simp [reconfigure, hm]
  · obtain ⟨hmon, hsub, hsup⟩ := reconfigure_post desired [] [] st hd
    have hsup' : ∀ u ∈ desired, u ∈ (reconfigure desired [] [] st).1.activeStreams :=
      fun u hu => hsup u hu (List.not_mem_nil u) (List.not_mem_nil u)
    have e1 : removeAll (reconfigure desired [] [] st).1.activeStreams desired
        (reconfigure desired [] [] st).1 = ((reconfigure desired [] [] st).1, []) :=
      removeAll_noop _ _ hsub
    have e2 : addAll desired failAnalysis failCapture (reconfigure desired [] [] st).1 =
        ((reconfigure desired [] [] st).1, []) :=
      addAll_noop _ _ _ _ hsup'
    rw [reconfigure_eq_mon failAnalysis failCapture hd hmon]
    simp [e1, e2]

theorem precedesB_cons_ne {a b e : Event} (l : List Event)
    (he1 : e ≠ b) (he2 : e ≠ a) :
    precedesB a b (e :: l) = precedesB a b l := by
  conv_lhs => unfold precedesB
  rw [if_neg he1, if_neg he2]

theorem removeOne_ev_mem (w : String) (st : StreamState) :
    ∀ e ∈ (removeOne w st).2, e = Event.cleanup w ∨ e = Event.sleepMs 100 ∨
      e = Event.markInactive w ∨ e = Event.freeAnalysisBuf w ∨
      e = Event.freeCaptureBuf w := by
  rw [removeOne_events]
  intro e he
  by_cases h1 : w ∈ st.processes <;> by_cases h2 : w ∈ st.analysisBuffers <;>
    by_cases h3 : w ∈ st.captureBuffers <;> simp_all <;> tauto

theorem removeOne_no_spawn (v w : String) (st : StreamState) :
    Event.spawn v ∉ (removeOne w st).2 := by
  intro hm
  rcases removeOne_ev_mem w st _ hm with h | h | h | h | h <;> exact Event.noConfusion h

theorem removeOne_no_drainAck (v w : String) (st : StreamState) :
    Event.drainAck v ∉ (removeOne w st).2 := by
  intro hm
  rcases removeOne_ev_mem w st _ hm with h | h | h | h | h <;> exact Event.noConfusion h

theorem removeOne_no_free_of_ne {u w : String} (st : StreamState) (hne : u ≠ w) :
    Event.freeAnalysisBuf u ∉ (removeOne w st).2 ∧
      Event.freeCaptureBuf u ∉ (removeOne w st).2 ∧
      Event.markInactive u ∉ (removeOne w st).2 := by
  refine ⟨?_, ?_, ?_⟩ <;>
    · intro hm
      rcases removeOne_ev_mem w st _ hm with h | h | h | h | h <;>
        first
          | exact Event.noConfusion h
          | exact hne (by injection h)

theorem removeAll_no_spawn :
    ∀ (current : List String) (desired : List String) (v : String) (st : StreamState),
      Event.spawn v ∉ (removeAll current desired st).2
  | [], _, v, st => by rw [removeAll_nil]; exact List.not_mem_nil _
  | w :: rest, desired, v, st => by
    by_cases hw : w ∈ desired
    · rw [removeAll_cons_skip rest st hw]
      exact removeAll_no_spawn rest desired v st
    · rw [removeAll_cons_rm rest st hw]
      intro hm
      rcases List.mem_append.mp hm with h | h
      · exact removeOne_no_spawn v w st h
      · exact removeAll_no_spawn rest desired v _ h

theorem removeAll_no_drainAck :
    ∀ (current : List String) (desired : List String) (v : String) (st : StreamState),
      Event.drainAck v ∉ (removeAll current desired st).2
  | [], _, v, st => by rw [removeAll_nil]; exact List.not_mem_nil _
  | w :: rest, desired, v, st => by
    by_cases hw : w ∈ desired
    · rw [removeAll_cons_skip rest st hw]
      exact removeAll_no_drainAck rest desired v st
    · rw [removeAll_cons_rm rest st hw]
      intro hm
      rcases List.mem_append.mp hm with h | h
      · exact removeOne_no_drainAck v w st h
      · exact removeAll_no_drainAck rest desired v _ h

theorem removeOne_precedes_self (u : String) (st : StreamState) :
    (precedesB (Event.markInactive u) (Event.freeAnalysisBuf u) (removeOne u st).2 = true ∧
      precedesB (Event.markInactive u) (Event.freeCaptureBuf u) (removeOne u st).2 = true ∧
      Event.markInactive u ∈ (removeOne u st).2) ∧
    (u ∈ st.processes →
      precedesB (Event.cleanup u) (Event.freeAnalysisBuf u) (removeOne u st).2 = true ∧
        precedesB (Event.cleanup u) (Event.freeCaptureBuf u) (removeOne u st).2 = true) := by
  rw [removeOne_events]
  by_cases h1 : u ∈ st.processes <;> by_cases h2 : u ∈ st.analysisBuffers <;>
    by_cases h3 : u ∈ st.captureBuffers <;>
      simp_all [precedesB]

theorem removeAll_precedes :
    ∀ (current : List String) {desired : List String} {st : StreamState} {u : String},
      u ∈ current → u ∉ desired →
      (precedesB (Event.markInactive u) (Event.freeAnalysisBuf u)
          (removeAll current desired st).2 = true ∧
        precedesB (Event.markInactive u) (Event.freeCaptureBuf u)
          (removeAll current desired st).2 = true ∧
        Event.markInactive u ∈ (removeAll current desired st).2) ∧
      (u ∈ st.processes →
        precedesB (Event.cleanup u) (Event.freeAnalysisBuf u)
            (removeAll current desired st).2 = true ∧
          precedesB (Event.cleanup u) (Event.freeCaptureBuf u)
            (removeAll current desired st).2 = true)
  | [], _, _, u, hm, _ => absurd hm (List.not_mem_nil u)
  | w :: rest, desired, st, u, hm, hd => by
    by_cases hw : w ∈ desired
    · have hne : u ≠ w := fun he => hd (he ▸ hw)
      have hm2 : u ∈ rest := by
        rcases List.mem_cons.mp hm with h | h
        · exact absurd h hne
        · exact h
      rw [removeAll_cons_skip rest st hw]
      exact removeAll_precedes rest hm2 hd
    · rw [removeAll_cons_rm rest st hw]
      by_cases heq : u = w
      · subst heq
        have hself := removeOne_precedes_self u st
        refine ⟨⟨?_, ?_, ?_⟩, fun hproc => ⟨?_, ?_⟩⟩
        · exact precedesB_append_of_found _ hself.1.2.2 hself.1.1
        · exact precedesB_append_of_found _ hself.1.2.2 hself.1.2.1
        · exact List.mem_append.mpr (Or.inl hself.1.2.2)
        · have hcl : Event.cleanup u ∈ (removeOne u st).2 := by
            rw [removeOne_events]
            simp [hproc]
          exact precedesB_append_of_found _ hcl (hself.2 hproc).1
        · have hcl : Event.cleanup u ∈ (removeOne u st).2 := by
            rw [removeOne_events]
            simp [hproc]
          exact precedesB_append_of_found _ hcl (hself.2 hproc).2
      · have hm2 : u ∈ rest := by
          rcases List.mem_cons.mp hm with h | h
          · exact absurd h heq
          · exact h
        have hnofree := removeOne_no_free_of_ne st heq
        have hproc2 : u ∈ (removeOne w st).1.processes ↔ u ∈ st.processes :=
          (removeOne_mem_of_ne heq).2.2.2
        have ih := @removeAll_precedes rest desired ((removeOne w st).1) u hm2 hd
        refine ⟨⟨?_, ?_, ?_⟩, fun hproc => ⟨?_, ?_⟩⟩
        · exact precedesB_append_left hnofree.1 ih.1.1
        · exact precedesB_append_left hnofree.2.1 ih.1.2.1
        · exact List.mem_append.mpr (Or.inr ih.1.2.2)
        · exact precedesB_append_left hnofree.1 ((ih.2 (hproc2.mpr hproc)).1)
        · exact precedesB_append_left hnofree.2.1 ((ih.2 (hproc2.mpr hproc)).2)

theorem removeAll_cleanup_mem :
    ∀ (current : List String) {desired : List String} {st : StreamState} {u : String},
      u ∈ current → u ∉ desired → u ∈ st.processes →
        Event.cleanup u ∈ (removeAll current desired st).2
  | [], _, _, u, hm, _, _ => absurd hm (List.not_mem_nil u)
  | w :: rest, desired, st, u, hm, hd, hproc => by
    by_cases hw : w ∈ desired
    · have hne : u ≠ w := fun he => hd (he ▸ hw)
      have hm2 : u ∈ rest := by
        rcases List.mem_cons.mp hm with h | h
        · exact absurd h hne
        · exact h
      rw [removeAll_cons_skip rest st hw]
      exact removeAll_cleanup_mem rest hm2 hd hproc
    · rw [removeAll_cons_rm rest st hw]
      by_cases heq : u = w
      · subst heq
        have hcl : Event.cleanup u ∈ (removeOne u st).2 := by
          rw [removeOne_events]
          simp [hproc]
        exact List.mem_append.mpr (Or.inl hcl)
      · have hm2 : u ∈ rest := by
          rcases List.mem_cons.mp hm with h | h
          · exact absurd h heq
          · exact h
        have hproc2 : u ∈ (removeOne w st).1.processes :=
          ((removeOne_mem_of_ne heq).2.2.2).mpr hproc
        exact List.mem_append.mpr (Or.inr (removeAll_cleanup_mem rest hm2 hd hproc2))

/-- C1 amended: for every source removed by a Reconfigure call, the capture
and analysis buffers are freed only after the source is marked inactive and
(when a decoder process exists) after the process `Cleanup` call, each
followed by a fixed 100 ms sleep; there is no drain acknowledgment at all -
the trace never contains a `drainAck` event. -/
theorem reconfigure_free_after_stop (desired failAnalysis failCapture : List String)
    (st : StreamState) (u : String)
    (hu : u ∈ st.activeStreams) (hnd : u ∉ desired) (hd : desired ≠ []) :
    precedesB (Event.markInactive u) (Event.freeAnalysisBuf u)
        (reconfigure desired failAnalysis failCapture st).2 = true ∧
      precedesB (Event.markInactive u) (Event.freeCaptureBuf u)
        (reconfigure desired failAnalysis failCapture st).2 = true ∧
      (u ∈ st.processes →
        precedesB (Event.cleanup u) (Event.freeAnalysisBuf u)
          (reconfigure desired failAnalysis failCapture st).2 = true) ∧
      Event.drainAck u ∉ (reconfigure desired failAnalysis failCapture st).2 := by
  by_cases hm : st.monitor = true
  · rw [reconfigure_eq_mon failAnalysis failCapture hd hm]
    have hrem := @removeAll_precedes st.activeStreams desired st u hu hnd
    refine ⟨?_, ?_, fun hproc => ?_, ?_⟩
    · exact precedesB_append_of_found _ hrem.1.2.2 hrem.1.1
    · exact precedesB_append_of_found _ hrem.1.2.2 hrem.1.2.1
    · exact precedesB_append_of_found _
        (removeAll_cleanup_mem st.activeStreams hu hnd hproc) ((hrem.2 hproc).1)
    · intro hmem
      rcases List.mem_append.mp hmem with h | h
      · exact removeAll_no_drainAck st.activeStreams desired u st h
      · exact addAll_no_drainAck desired failAnalysis failCapture u _ h
  · have hm' : st.monitor = false := Bool.not_eq_true _ ▸ Bool.of_not_eq_true hm
    rw [reconfigure_eq_nomon failAnalysis failCapture hd hm']
    have hrem := @removeAll_precedes st.activeStreams desired { st with monitor := true }
      u hu hnd
    refine ⟨?_, ?_, fun hproc => ?_, ?_⟩
    · rw [precedesB_cons_ne _ (fun h => Event.noConfusion h) (fun h => Event.noConfusion h)]
      exact precedesB_append_of_found _ hrem.1.2.2 hrem.1.1
    · rw [precedesB_cons_ne _ (fun h => Event.noConfusion h) (fun h => Event.noConfusion h)]
      exact precedesB_append_of_found _ hrem.1.2.2 hrem.1.2.1
    · rw [precedesB_cons_ne _ (fun h => Event.noConfusion h) (fun h => Event.noConfusion h)]
      exact precedesB_append_of_found _
        (removeAll_cleanup_mem st.activeStreams hu hnd hproc) ((hrem.2 hproc).1)
    · intro hmem
      rcases List.mem_cons.mp hmem with h | h
      · exact Event.noConfusion h
      · rcases List.mem_append.mp h with h2 | h2
        · exact removeAll_no_drainAck st.activeStreams desired u _ h2
        · exact addAll_no_drainAck desired failAnalysis failCapture u _ h2

/-- C1 counterexample: removing the active source `a` (desired set `[b]`)
frees its analysis buffer, yet no drain acknowledgment ever precedes the
freeing - the trace contains no `drainAck` event, only fixed 100 ms sleeps,
so "freeing never precedes the acknowledgment" is false as stated. -/
theorem reconfigure_fixed_sleep_no_ack :
    Event.freeAnalysisBuf ("a") ∈
        (reconfigure ["b"] [] [] ⟨true, ["a"], ["a"], ["a"], ["a"]⟩).2 ∧
      Event.sleepMs 100 ∈
        (reconfigure ["b"] [] [] ⟨true, ["a"], ["a"], ["a"], ["a"]⟩).2 ∧
      precedesB (Event.drainAck ("a")) (Event.freeAnalysisBuf ("a"))
        (reconfigure ["b"] [] [] ⟨true, ["a"], ["a"], ["a"], ["a"]⟩).2 = false := by
  decide

/-- Witness for C1's amended theorem at a concrete removal. -/
theorem reconfigure_free_after_stop_witness :
    ("cam1" ∈ (⟨true, ["cam1"], ["cam1"], ["cam1"], ["cam1"]⟩ : StreamState).activeStreams ∧
      "cam1" ∉ (["cam2"] : List String) ∧ (["cam2"] : List String) ≠ []) ∧
    (precedesB (Event.markInactive ("cam1")) (Event.freeAnalysisBuf ("cam1"))
        (reconfigure ["cam2"] [] [] ⟨true, ["cam1"], ["cam1"], ["cam1"], ["cam1"]⟩).2 = true ∧
      precedesB (Event.markInactive ("cam1")) (Event.freeCaptureBuf ("cam1"))
        (reconfigure ["cam2"] [] [] ⟨true, ["cam1"], ["cam1"], ["cam1"], ["cam1"]⟩).2 = true ∧
      ("cam1" ∈ (⟨true, ["cam1"], ["cam1"], ["cam1"], ["cam1"]⟩ : StreamState).processes →
        precedesB (Event.cleanup ("cam1")) (Event.freeAnalysisBuf ("cam1"))
          (reconfigure ["cam2"] [] [] ⟨true, ["cam1"], ["cam1"], ["cam1"], ["cam1"]⟩).2 = true) ∧
      Event.drainAck ("cam1") ∉
        (reconfigure ["cam2"] [] [] ⟨true, ["cam1"], ["cam1"], ["cam1"], ["cam1"]⟩).2) :=
  ⟨⟨by decide, by decide, by decide⟩,
    reconfigure_free_after_stop ["cam2"] [] [] ⟨true, ["cam1"], ["cam1"], ["cam1"], ["cam1"]⟩
      "cam1" (by decide) (by decide) (by decide)⟩

/-- C3: an analysis-buffer allocation failure for source `u` (failure oracle
`[u]`) makes the call skip only `u` - it is not marked active and never
spawned - while every other desired source is started; on the next
Reconfigure call the allocation for `u` is attempted again and, absent
failures, `u` becomes active. -/
theorem reconfigure_failure_isolated (desired : List String) (u : String)
    (st : StreamState) (hu : u ∈ desired) (h1 : u ∉ st.activeStreams)
    (h2 : u ∉ st.analysisBuffers) :
    (u ∉ (reconfigure desired [u] [] st).1.activeStreams ∧
      Event.spawn u ∉ (reconfigure desired [u] [] st).2) ∧
    (∀ v ∈ desired, v ≠ u → v ∈ (reconfigure desired [u] [] st).1.activeStreams) ∧
    (Event.allocAttempt AllocKind.analysis u ∈
        (reconfigure desired [] [] (reconfigure desired [u] [] st).1).2 ∧
      u ∈ (reconfigure desired [] [] (reconfigure desired [u] [] st).1).1.activeStreams) := by
  have hd : desired ≠ [] := by
    intro h
    rw [h] at hu
    exact List.not_mem_nil u hu
  have hmemu : u ∈ [u] := List.mem_cons_self u []
  have hfacts : u ∉ (reconfigure desired [u] [] st).1.activeStreams ∧
      u ∉ (reconfigure desired [u] [] st).1.analysisBuffers ∧
      Event.spawn u ∉ (reconfigure desired [u] [] st).2 := by
    by_cases hm : st.monitor = true
    · rw [reconfigure_eq_mon [u] [] hd hm]
      have hA : u ∉ (removeAll st.activeStreams desired st).1.activeStreams :=
        fun hmem => h1 ((removeAll_state_sub st.activeStreams desired st u).1 hmem)
      have hB : u ∉ (removeAll st.activeStreams desired st).1.analysisBuffers :=
        fun hmem => h2 ((removeAll_state_sub st.activeStreams desired st u).2.1 hmem)
      have hinv := addAll_fail_invariant desired [] hmemu hA hB
      refine ⟨hinv.1, hinv.2.1, ?_⟩
      intro hmem
      rcases List.mem_append.mp hmem with h | h
      · exact removeAll_no_spawn st.activeStreams desired u st h
      · exact hinv.2.2 h
    · have hm' : st.monitor = false := Bool.not_eq_true _ ▸ Bool.of_not_eq_true hm
      rw [reconfigure_eq_nomon [u] [] hd hm']
      have hA : u ∉ (removeAll st.activeStreams desired
          { st with monitor := true }).1.activeStreams :=
        fun hmem => h1 ((removeAll_state_sub st.activeStreams desired
          { st with monitor := true } u).1 hmem)
      have hB : u ∉ (removeAll st.activeStreams desired
          { st with monitor := true }).1.analysisBuffers :=
        fun hmem => h2 ((removeAll_state_sub st.activeStreams desired
          { st with monitor := true } u).2.1 hmem)
      have hinv := addAll_fail_invariant desired [] hmemu hA hB
      refine ⟨hinv.1, hinv.2.1, ?_⟩
      intro hmem
      rcases List.mem_cons.mp hmem with h | h
      · exact Event.noConfusion h
      · rcases List.mem_append.mp h with h2' | h2'
        · exact removeAll_no_spawn st.activeStreams desired u _ h2'
        · exact hinv.2.2 h2'
  refine ⟨⟨hfacts.1, hfacts.2.2⟩, ?_, ?_, ?_⟩
  · intro v hv hne
    exact (reconfigure_post desired [u] [] st hd).2.2 v hv (by simp [hne])
      (List.not_mem_nil v)
  · have hmon1 : (reconfigure desired [u] [] st).1.monitor = true :=
      (reconfigure_post desired [u] [] st hd).1
    rw [reconfigure_eq_mon [] [] hd hmon1]
    have hA2 : u ∉ (removeAll (reconfigure desired [u] [] st).1.activeStreams desired
        (reconfigure desired [u] [] st).1).1.activeStreams :=
      fun hmem => hfacts.1 ((removeAll_state_sub _ _ _ u).1 hmem)
    have hB2 : u ∉ (removeAll (reconfigure desired [u] [] st).1.activeStreams desired
        (reconfigure desired [u] [] st).1).1.analysisBuffers :=
      fun hmem => hfacts.2.1 ((removeAll_state_sub _ _ _ u).2.1 hmem)
    exact List.mem_append.mpr (Or.inr (addAll_attempt_mem desired [] [] hu hA2 hB2))
  · exact (reconfigure_post desired [] [] _ hd).2.2 u hu (List.not_mem_nil u)
      (List.not_mem_nil u)

/-- Witness for C3 with desired sources `a`, `b`, allocation failing for `a`,
starting from the empty state. -/
theorem reconfigure_failure_isolated_witness :
    ("a" ∈ (["a", "b"] : List String) ∧
      "a" ∉ (⟨false, [], [], [], []⟩ : StreamState).activeStreams ∧
      "a" ∉ (⟨false, [], [], [], []⟩ : StreamState).analysisBuffers) ∧
    (("a" ∉ (reconfigure ["a", "b"] ["a"] [] ⟨false, [], [], [], []⟩).1.activeStreams ∧
      Event.spawn ("a") ∉ (reconfigure ["a", "b"] ["a"] [] ⟨false, [], [], [], []⟩).2) ∧
    (∀ v ∈ (["a", "b"] : List String), v ≠ "a" →
      v ∈ (reconfigure ["a", "b"] ["a"] [] ⟨false, [], [], [], []⟩).1.activeStreams) ∧
    (Event.allocAttempt AllocKind.analysis ("a") ∈
        (reconfigure ["a", "b"] [] []
          (reconfigure ["a", "b"] ["a"] [] ⟨false, [], [], [], []⟩).1).2 ∧
      "a" ∈ (reconfigure ["a", "b"] [] []
        (reconfigure ["a", "b"] ["a"] [] ⟨false, [], [], [], []⟩).1).1.activeStreams)) :=
  ⟨⟨by decide, by decide, by decide⟩,
    reconfigure_failure_isolated ["a", "b"] "a" ⟨false, [], [], [], []⟩
      (by decide) (by decide) (by decide)⟩
